import Mathlib

/-!
Shallow embedding of the wir2wav core (src/lib.rs): the byte cursor, the
header decoder, the body decoder and the wav-writing deinterleaver, together
with proofs of the specified properties.

Modelling conventions:
* A byte buffer is a `List Nat` whose elements are intended to lie below 256
  (the bound is carried as a hypothesis where a proof needs it).
* Rust `String` values are carried as their UTF-8 byte lists; decoding via
  `String::from_utf8` is modelled by the executable validator `utf8Valid`.
* 32-bit float samples are carried as their little-endian 32-bit patterns
  (a `Nat`); the program never performs float arithmetic, it only moves the
  samples around, so this is faithful for the structural properties proved
  here.
* A `Result` return is modelled by the `ok`/`err` constructors; a Rust panic
  raised by `.unwrap()` is modelled by the distinct `panicked` constructor,
  carrying the error value the unwrap was applied to.
* The two `while` loops are modelled with an explicit fuel parameter; the
  `fuelOut` constructor marks fuel exhaustion, so non-termination of the
  source loop corresponds to returning `fuelOut` for every fuel value.
-/

namespace Wir2Wav

/-- Models `enum ParserError { IoError(..), InvalidCharacterError(..) }`
(src/lib.rs lines 67-71); the payloads are dropped. -/
inductive ParserError where
  | IoError : ParserError
  | InvalidCharacterError : ParserError
deriving DecidableEq

/-- Outcome of a fallible parsing step: a normal `Ok` return, a normal `Err`
return, or a panic raised by `.unwrap()` (carrying the unwrapped error). -/
inductive PResult (α : Type) where
  | ok : α → PResult α
  | err : ParserError → PResult α
  | panicked : ParserError → PResult α
deriving DecidableEq

/-- Outcome of the fuel-instrumented body-decoding loop. -/
inductive BodyResult (α : Type) where
  | ok : α → BodyResult α
  | panicked : ParserError → BodyResult α
  | fuelOut : BodyResult α
deriving DecidableEq

/-- Outcome of the fuel-instrumented wav-writing loop.  `panicked` carries
the samples already handed to the encoder before the panic. -/
inductive WavResult (α : Type) where
  | ok : α → WavResult α
  | panicked : List Nat → WavResult α
  | fuelOut : WavResult α
deriving DecidableEq

/-- Models `struct Parser { reader: Cursor<Vec<u8>> }` (src/lib.rs lines
75-77): the underlying buffer plus the cursor position. -/
structure Parser where
  bytes : List Nat
  pos : Nat
deriving DecidableEq

/-- Models `Read::read_exact` on a `Cursor<Vec<u8>>`: returns the next `n`
bytes and advances the position, or fails with an UnexpectedEof io error
(modelled as `IoError`) when fewer than `n` bytes remain. -/
def read_exact (p : Parser) (n : Nat) : PResult (List Nat × Parser) :=
  if p.pos + n ≤ p.bytes.length then
    .ok ((p.bytes.drop p.pos).take n, ⟨p.bytes, p.pos + n⟩)
  else
    .err .IoError

/-- Little-endian decoding of a byte list, least significant byte first;
`le_decode [a,b,c,d]` is `u32::from_le_bytes([a,b,c,d])` for bytes < 256. -/
def le_decode : List Nat → Nat
  | [] => 0
  | b :: rest => b + 256 * le_decode rest

/-- Models byteorder's `read_u16::<LittleEndian>`: two bytes via `read_exact`,
combined little-endian. -/
def read_u16 (p : Parser) : PResult (Nat × Parser) :=
  match read_exact p 2 with
  | .ok (bs, p') => .ok (le_decode bs, p')
  | .err e => .err e
  | .panicked e => .panicked e

/-- Models byteorder's `read_u32::<LittleEndian>`: four bytes via
`read_exact`, combined little-endian. -/
def read_u32 (p : Parser) : PResult (Nat × Parser) :=
  match read_exact p 4 with
  | .ok (bs, p') => .ok (le_decode bs, p')
  | .err e => .err e
  | .panicked e => .panicked e

/-- Models byteorder's `read_f32::<LittleEndian>`: four bytes via
`read_exact`; the sample is carried as its 32-bit little-endian pattern. -/
def read_f32_bits (p : Parser) : PResult (Nat × Parser) :=
  match read_exact p 4 with
  | .ok (bs, p') => .ok (le_decode bs, p')
  | .err e => .err e
  | .panicked e => .panicked e

/-- Continuation byte of a UTF-8 sequence: `0x80..=0xBF`. -/
def isCont (b : Nat) : Bool := 128 ≤ b && b ≤ 191

/-- Executable UTF-8 validity check over a byte list, following the table
used by Rust's `String::from_utf8` (RFC 3629: overlong encodings, surrogates
and code points above U+10FFFF are rejected). -/
def utf8Valid : List Nat → Bool
  | [] => true
  | b :: rest =>
    if b ≤ 127 then utf8Valid rest
    else if 194 ≤ b && b ≤ 223 then
      match rest with
      | c1 :: rest1 => isCont c1 && utf8Valid rest1
      | [] => false
    else if b = 224 then
      match rest with
      | c1 :: c2 :: rest2 => (160 ≤ c1 && c1 ≤ 191) && isCont c2 && utf8Valid rest2
      | _ => false
    else if 225 ≤ b && b ≤ 236 then
      match rest with
      | c1 :: c2 :: rest2 => isCont c1 && isCont c2 && utf8Valid rest2
      | _ => false
    else if b = 237 then
      match rest with
      | c1 :: c2 :: rest2 => (128 ≤ c1 && c1 ≤ 159) && isCont c2 && utf8Valid rest2
      | _ => false
    else if 238 ≤ b && b ≤ 239 then
      match rest with
      | c1 :: c2 :: rest2 => isCont c1 && isCont c2 && utf8Valid rest2
      | _ => false
    else if b = 240 then
      match rest with
      | c1 :: c2 :: c3 :: rest3 =>
          (144 ≤ c1 && c1 ≤ 191) && isCont c2 && isCont c3 && utf8Valid rest3
      | _ => false
    else if 241 ≤ b && b ≤ 243 then
      match rest with
      | c1 :: c2 :: c3 :: rest3 => isCont c1 && isCont c2 && isCont c3 && utf8Valid rest3
      | _ => false
    else if b = 244 then
      match rest with
      | c1 :: c2 :: c3 :: rest3 =>
          (128 ≤ c1 && c1 ≤ 143) && isCont c2 && isCont c3 && utf8Valid rest3
      | _ => false
    else false

/-- Models `struct WirHeader` (src/lib.rs lines 29-42); the three tag fields
are carried as UTF-8 byte lists, numeric fields as `Nat`. -/
structure WirHeader where
  magic : List Nat
  file_size : Nat
  version : List Nat
  header_size : Nat
  i3 : Nat
  channels : Nat
  sample_rate : Nat
  fs2 : Nat
  i4 : Nat
  i5 : Nat
  data : List Nat
deriving DecidableEq

/-- Models `Parser::parse_magic` (src/lib.rs lines 132-138): 4 raw bytes,
io failure returned as `IoError`, then UTF-8 decoding, invalid bytes
returned as `InvalidCharacterError`. -/
def parse_magic (p : Parser) : PResult (List Nat × Parser) :=
  match read_exact p 4 with
  | .ok (bs, p') => if utf8Valid bs then .ok (bs, p') else .err .InvalidCharacterError
  | .err e => .err e
  | .panicked e => .panicked e

/-- Models `Parser::parse_file_size` (src/lib.rs lines 139-141). -/
def parse_file_size (p : Parser) : PResult (Nat × Parser) := read_u32 p

/-- Models `Parser::parse_version` (src/lib.rs lines 142-148): 8 raw bytes,
io failure returned as `IoError`, then UTF-8 decoding, invalid bytes
returned as `InvalidCharacterError`. -/
def parse_version (p : Parser) : PResult (List Nat × Parser) :=
  match read_exact p 8 with
  | .ok (bs, p') => if utf8Valid bs then .ok (bs, p') else .err .InvalidCharacterError
  | .err e => .err e
  | .panicked e => .panicked e

/-- Models `Parser::parse_header_size` (src/lib.rs lines 149-151). -/
def parse_header_size (p : Parser) : PResult (Nat × Parser) := read_u32 p

/-- Models `Parser::parse_i3_variable` (src/lib.rs lines 152-154). -/
def parse_i3_variable (p : Parser) : PResult (Nat × Parser) := read_u16 p

/-- Models `Parser::parse_channels` (src/lib.rs lines 155-157). -/
def parse_channels (p : Parser) : PResult (Nat × Parser) := read_u16 p

/-- Models `Parser::parse_sample_rate` (src/lib.rs lines 158-160). -/
def parse_sample_rate (p : Parser) : PResult (Nat × Parser) := read_u32 p

/-- Models `Parser::parse_fs2_variable` (src/lib.rs lines 161-163). -/
def parse_fs2_variable (p : Parser) : PResult (Nat × Parser) := read_u32 p

/-- Models `Parser::parse_i4_channels` (src/lib.rs lines 164-166). -/
def parse_i4_channels (p : Parser) : PResult (Nat × Parser) := read_u16 p

/-- Models `Parser::parse_i5_variable` (src/lib.rs lines 167-169). -/
def parse_i5_variable (p : Parser) : PResult (Nat × Parser) := read_u16 p

/-- Models `Parser::parse_end_of_header` (src/lib.rs lines 170-174).  Unlike
every sibling field parser, the byte read is followed by `.unwrap()` rather
than `.map_err(ParserError::IoError)?`, so an exhausted buffer panics here
instead of returning the io error. -/
def parse_end_of_header (p : Parser) : PResult (List Nat × Parser) :=
  match read_exact p 4 with
  | .ok (bs, p') => if utf8Valid bs then .ok (bs, p') else .err .InvalidCharacterError
  | .err e => .panicked e
  | .panicked e => .panicked e

/-- Models `Parser::parse_header` (src/lib.rs lines 104-131): the eleven
fields are read strictly in order, each through `.unwrap()`, so any
sub-parser failure becomes a panic carrying that failure's error value. -/
def parse_header (p : Parser) : PResult (WirHeader × Parser) :=
  match parse_magic p with
  | .err e => .panicked e
  | .panicked e => .panicked e
  | .ok (magic, p1) =>
  match parse_file_size p1 with
  | .err e => .panicked e
  | .panicked e => .panicked e
  | .ok (file_size, p2) =>
  match parse_version p2 with
  | .err e => .panicked e
  | .panicked e => .panicked e
  | .ok (version, p3) =>
  match parse_header_size p3 with
  | .err e => .panicked e
  | .panicked e => .panicked e
  | .ok (header_size, p4) =>
  match parse_i3_variable p4 with
  | .err e => .panicked e
  | .panicked e => .panicked e
  | .ok (i3, p5) =>
  match parse_channels p5 with
  | .err e => .panicked e
  | .panicked e => .panicked e
  | .ok (channels, p6) =>
  match parse_sample_rate p6 with
  | .err e => .panicked e
  | .panicked e => .panicked e
  | .ok (sample_rate, p7) =>
  match parse_fs2_variable p7 with
  | .err e => .panicked e
  | .panicked e => .panicked e
  | .ok (fs2, p8) =>
  match parse_i4_channels p8 with
  | .err e => .panicked e
  | .panicked e => .panicked e
  | .ok (i4, p9) =>
  match parse_i5_variable p9 with
  | .err e => .panicked e
  | .panicked e => .panicked e
  | .ok (i5, p10) =>
  match parse_end_of_header p10 with
  | .err e => .panicked e
  | .panicked e => .panicked e
  | .ok (data, p11) =>
    .ok ({ magic := magic, file_size := file_size, version := version,
           header_size := header_size, i3 := i3, channels := channels,
           sample_rate := sample_rate, fs2 := fs2, i4 := i4, i5 := i5,
           data := data }, p11)

/-- Models `body[channel as usize].push(data)`: appends a sample to the
channel at the given index. -/
def pushAt (body : List (List Nat)) (i : Nat) (x : Nat) : List (List Nat) :=
  body.set i (body.getD i [] ++ [x])

/-- Inner loop of `Parser::parse_body` (src/lib.rs lines 97-100) counting
the `k` channel indices still to read, starting at index `channel`: each
`read_f32` failure is unwrapped, i.e. panics. -/
def readFrameAux (p : Parser) (body : List (List Nat)) (channel : Nat) :
    Nat → PResult (List (List Nat) × Parser)
  | 0 => .ok (body, p)
  | k + 1 =>
    match read_f32_bits p with
    | .ok (x, p') => readFrameAux p' (pushAt body channel x) (channel + 1) k
    | .err e => .panicked e
    | .panicked e => .panicked e

/-- One iteration of the body-decoding `while` loop: the
`for channel in 0..header.channels` pass reading one frame. -/
def readFrame (p : Parser) (body : List (List Nat)) (channels : Nat) :
    PResult (List (List Nat) × Parser) :=
  readFrameAux p body 0 channels

/-- The `while (self.reader.position() as u32) < header.file_size` loop of
`Parser::parse_body` (src/lib.rs line 96), instrumented with fuel.  The
`u64 -> u32` cast of the position is the `% 4294967296`. -/
def parse_body_loop (channels file_size : Nat) :
    Nat → Parser → List (List Nat) → BodyResult (List (List Nat) × Parser)
  | 0, _, _ => .fuelOut
  | fuel + 1, p, body =>
    if p.pos % 4294967296 < file_size then
      match readFrame p body channels with
      | .ok (body', p') => parse_body_loop channels file_size fuel p' body'
      | .err e => .panicked e
      | .panicked e => .panicked e
    else
      .ok (body, p)

/-- Models `Parser::parse_body` (src/lib.rs lines 90-103): one empty sample
sequence per declared channel, then the frame loop. -/
def parse_body (p : Parser) (header : WirHeader) (fuel : Nat) :
    BodyResult (List (List Nat) × Parser) :=
  parse_body_loop header.channels header.file_size fuel p
    (List.replicate header.channels [])

/-- Models `struct Wir { header, body }` (src/lib.rs lines 7-10). -/
structure Wir where
  header : WirHeader
  body : List (List Nat)
deriving DecidableEq

/-- Models `Parser::parse` (src/lib.rs lines 85-89): `parse_header` is
unwrapped (a header failure panics), then the body is decoded. -/
def parse (p : Parser) (fuel : Nat) : BodyResult (Wir × Parser) :=
  match parse_header p with
  | .err e => .panicked e
  | .panicked e => .panicked e
  | .ok (header, p1) =>
    match parse_body p1 header fuel with
    | .ok (body, p2) => .ok (⟨header, body⟩, p2)
    | .panicked e => .panicked e
    | .fuelOut => .fuelOut

/-- Models `check_magic` (src/lib.rs lines 177-179): string equality with
the literal "wvIR", i.e. the bytes `[0x77, 0x76, 0x49, 0x52]`. -/
def check_magic (magic_word : List Nat) : Bool :=
  magic_word == [119, 118, 73, 82]

/-- One pass of `for channel in &mut self.body { writer.write_sample(channel.remove(0))?; }`
(src/lib.rs lines 20-22).  Returns the samples handed to the encoder during
the pass, in order, and the updated body, or `none` in the second component
when `channel.remove(0)` hits an empty channel and panics mid-pass. -/
def writeFrame : List (List Nat) → List Nat × Option (List (List Nat))
  | [] => ([], some [])
  | [] :: _ => ([], none)
  | (x :: xs) :: rest =>
    match writeFrame rest with
    | (samples, none) => (x :: samples, none)
    | (samples, some rest') => (x :: samples, some (xs :: rest'))

/-- The `while (&mut self.body).into_iter().last().unwrap().len() > 0` loop
of `Wir::write_to_wav` (src/lib.rs lines 19-23), instrumented with fuel.
`out` accumulates every sample handed to `write_sample`, in order; the
`unwrap` on an empty channel list panics, carrying the samples written so
far. -/
def write_loop : Nat → List (List Nat) → List Nat → WavResult (List Nat × List (List Nat))
  | 0, _, _ => .fuelOut
  | fuel + 1, body, out =>
    match body.getLast? with
    | none => .panicked out
    | some lastChannel =>
      if 0 < lastChannel.length then
        match writeFrame body with
        | (samples, none) => .panicked (out ++ samples)
        | (samples, some body') => write_loop fuel body' (out ++ samples)
      else
        .ok (out, body)

/-- Models `Wir::write_to_wav` (src/lib.rs lines 13-27) with the hound
writer abstracted as the ordered list of samples passed to `write_sample`:
returns that list together with the final (drained) body. -/
def write_to_wav (body : List (List Nat)) (fuel : Nat) :
    WavResult (List Nat × List (List Nat)) :=
  write_loop fuel body []

/-- Modelled from the spec's layout table: little-endian re-encoding of a
16-bit field. -/
def le16enc (n : Nat) : List Nat := [n % 256, n / 256 % 256]

/-- Modelled from the spec's layout table: little-endian re-encoding of a
32-bit field. -/
def le32enc (n : Nat) : List Nat :=
  [n % 256, n / 256 % 256, n / 65536 % 256, n / 16777216 % 256]

/-- Modelled from the spec's layout table (section 3 of the design spec):
re-serialization of the eleven header fields in table order with their
declared widths. -/
def encode_header (h : WirHeader) : List Nat :=
  h.magic ++ le32enc h.file_size ++ h.version ++ le32enc h.header_size ++
    le16enc h.i3 ++ le16enc h.channels ++ le32enc h.sample_rate ++
    le32enc h.fs2 ++ le16enc h.i4 ++ le16enc h.i5 ++ h.data

/-- Modelled from the spec's layout table: the field values a conforming
decoder must extract from the fixed byte ranges of a 40-byte header. -/
def header_of_bytes (buf : List Nat) : WirHeader :=
  { magic := (buf.drop 0).take 4,
    file_size := le_decode ((buf.drop 4).take 4),
    version := (buf.drop 8).take 8,
    header_size := le_decode ((buf.drop 16).take 4),
    i3 := le_decode ((buf.drop 20).take 2),
    channels := le_decode ((buf.drop 22).take 2),
    sample_rate := le_decode ((buf.drop 24).take 4),
    fs2 := le_decode ((buf.drop 28).take 4),
    i4 := le_decode ((buf.drop 32).take 2),
    i5 := le_decode ((buf.drop 34).take 2),
    data := (buf.drop 36).take 4 }

end Wir2Wav
namespace Wir2Wav

lemma read_exact_eq_ok (p : Parser) (n : Nat) (h : p.pos + n ≤ p.bytes.length) :
    read_exact p n = .ok ((p.bytes.drop p.pos).take n, ⟨p.bytes, p.pos + n⟩) := by
  simp [read_exact, h]

lemma parse_magic_eq_ok (buf : List Nat) (pos : Nat) (h : pos + 4 ≤ buf.length)
    (hu : utf8Valid ((buf.drop pos).take 4) = true) :
    parse_magic ⟨buf, pos⟩ = .ok ((buf.drop pos).take 4, ⟨buf, pos + 4⟩) := by
  simp [parse_magic, read_exact_eq_ok ⟨buf, pos⟩ 4 h, hu]

lemma parse_version_eq_ok (buf : List Nat) (pos : Nat) (h : pos + 8 ≤ buf.length)
    (hu : utf8Valid ((buf.drop pos).take 8) = true) :
    parse_version ⟨buf, pos⟩ = .ok ((buf.drop pos).take 8, ⟨buf, pos + 8⟩) := by
  simp [parse_version, read_exact_eq_ok ⟨buf, pos⟩ 8 h, hu]

lemma parse_end_of_header_eq_ok (buf : List Nat) (pos : Nat) (h : pos + 4 ≤ buf.length)
    (hu : utf8Valid ((buf.drop pos).take 4) = true) :
    parse_end_of_header ⟨buf, pos⟩ = .ok ((buf.drop pos).take 4, ⟨buf, pos + 4⟩) := by
  simp [parse_end_of_header, read_exact_eq_ok ⟨buf, pos⟩ 4 h, hu]

lemma read_u32_eq_ok (buf : List Nat) (pos : Nat) (h : pos + 4 ≤ buf.length) :
    read_u32 ⟨buf, pos⟩ = .ok (le_decode ((buf.drop pos).take 4), ⟨buf, pos + 4⟩) := by
  simp [read_u32, read_exact_eq_ok ⟨buf, pos⟩ 4 h]

lemma read_u16_eq_ok (buf : List Nat) (pos : Nat) (h : pos + 2 ≤ buf.length) :
    read_u16 ⟨buf, pos⟩ = .ok (le_decode ((buf.drop pos).take 2), ⟨buf, pos + 2⟩) := by
  simp [read_u16, read_exact_eq_ok ⟨buf, pos⟩ 2 h]

lemma parse_header_eq (buf : List Nat) (h40 : 40 ≤ buf.length)
    (hm : utf8Valid ((buf.drop 0).take 4) = true)
    (hv : utf8Valid ((buf.drop 8).take 8) = true)
    (hd : utf8Valid ((buf.drop 36).take 4) = true) :
    parse_header ⟨buf, 0⟩ = .ok (header_of_bytes buf, ⟨buf, 40⟩) := by
  have e1 : parse_magic ⟨buf, 0⟩ = .ok ((buf.drop 0).take 4, ⟨buf, 4⟩) :=
    parse_magic_eq_ok buf 0 (by omega) hm
  have e2 : parse_file_size ⟨buf, 4⟩ =
      .ok (le_decode ((buf.drop 4).take 4), ⟨buf, 8⟩) := read_u32_eq_ok buf 4 (by omega)
  have e3 : parse_version ⟨buf, 8⟩ = .ok ((buf.drop 8).take 8, ⟨buf, 16⟩) :=
    parse_version_eq_ok buf 8 (by omega) hv
  have e4 : parse_header_size ⟨buf, 16⟩ =
      .ok (le_decode ((buf.drop 16).take 4), ⟨buf, 20⟩) := read_u32_eq_ok buf 16 (by omega)
  have e5 : parse_i3_variable ⟨buf, 20⟩ =
      .ok (le_decode ((buf.drop 20).take 2), ⟨buf, 22⟩) := read_u16_eq_ok buf 20 (by omega)
  have e6 : parse_channels ⟨buf, 22⟩ =
      .ok (le_decode ((buf.drop 22).take 2), ⟨buf, 24⟩) := read_u16_eq_ok buf 22 (by omega)
  have e7 : parse_sample_rate ⟨buf, 24⟩ =
      .ok (le_decode ((buf.drop 24).take 4), ⟨buf, 28⟩) := read_u32_eq_ok buf 24 (by omega)
  have e8 : parse_fs2_variable ⟨buf, 28⟩ =
      .ok (le_decode ((buf.drop 28).take 4), ⟨buf, 32⟩) := read_u32_eq_ok buf 28 (by omega)
  have e9 : parse_i4_channels ⟨buf, 32⟩ =
      .ok (le_decode ((buf.drop 32).take 2), ⟨buf, 34⟩) := read_u16_eq_ok buf 32 (by omega)
  have e10 : parse_i5_variable ⟨buf, 34⟩ =
      .ok (le_decode ((buf.drop 34).take 2), ⟨buf, 36⟩) := read_u16_eq_ok buf 34 (by omega)
  have e11 : parse_end_of_header ⟨buf, 36⟩ = .ok ((buf.drop 36).take 4, ⟨buf, 40⟩) :=
    parse_end_of_header_eq_ok buf 36 (by omega) hd
  simp only [parse_header, e1, e2, e3, e4, e5, e6, e7, e8, e9, e10, e11, header_of_bytes]

lemma list_len2 (l : List Nat) (hl : l.length = 2) : ∃ a b, l = [a, b] := by
  obtain ⟨a, l, rfl⟩ := List.exists_of_length_succ l hl
  obtain ⟨b, l, rfl⟩ := List.exists_of_length_succ l (by simpa using hl)
  have : l = [] := List.length_eq_zero.mp (by simpa using hl)
  exact ⟨a, b, by rw [this]⟩

lemma list_len4 (l : List Nat) (hl : l.length = 4) : ∃ a b c d, l = [a, b, c, d] := by
  obtain ⟨a, l, rfl⟩ := List.exists_of_length_succ l hl
  obtain ⟨b, l, rfl⟩ := List.exists_of_length_succ l (by simpa using hl)
  obtain ⟨c, l, rfl⟩ := List.exists_of_length_succ l (by simpa using hl)
  obtain ⟨d, l, rfl⟩ := List.exists_of_length_succ l (by simpa using hl)
  have : l = [] := List.length_eq_zero.mp (by simpa using hl)
  exact ⟨a, b, c, d, by rw [this]⟩

lemma le16enc_le_decode (l : List Nat) (hl : l.length = 2) (hb : ∀ b ∈ l, b < 256) :
    le16enc (le_decode l) = l := by
  obtain ⟨a, b, rfl⟩ := list_len2 l hl
  have ha := hb a (by simp)
  have hbb := hb b (by simp)
  simp only [le_decode, le16enc, List.cons.injEq, and_true]
  omega

lemma le32enc_le_decode (l : List Nat) (hl : l.length = 4) (hb : ∀ b ∈ l, b < 256) :
    le32enc (le_decode l) = l := by
  obtain ⟨a, b, c, d, rfl⟩ := list_len4 l hl
  have ha := hb a (by simp)
  have hbb := hb b (by simp)
  have hc := hb c (by simp)
  have hdd := hb d (by simp)
  simp only [le_decode, le32enc, List.cons.injEq, and_true]
  omega

lemma slice_length (buf : List Nat) (k w : Nat) (h : k + w ≤ buf.length) :
    ((buf.drop k).take w).length = w := by
  simp only [List.length_take, List.length_drop]
  omega

lemma slice_bytes (buf : List Nat) (k w : Nat) (hb : ∀ b ∈ buf, b < 256) :
    ∀ b ∈ (buf.drop k).take w, b < 256 := fun b hbm =>
  hb b (List.drop_subset k buf (List.take_subset w (buf.drop k) hbm))

/-- C1: for every byte buffer of length at least 40 whose three tag regions
are valid UTF-8, `parse_header` returns the header whose eleven fields are
the little-endian decodes of their fixed byte ranges in table order, and
re-serializing those field values in the layout reproduces the original 40
header bytes exactly. -/
theorem parse_header_layout_roundtrip (buf : List Nat) (h40 : 40 ≤ buf.length)
    (hbytes : ∀ b ∈ buf, b < 256)
    (hm : utf8Valid ((buf.drop 0).take 4) = true)
    (hv : utf8Valid ((buf.drop 8).take 8) = true)
    (hd : utf8Valid ((buf.drop 36).take 4) = true) :
    parse_header ⟨buf, 0⟩ = .ok (header_of_bytes buf, ⟨buf, 40⟩) ∧
      encode_header (header_of_bytes buf) = buf.take 40 := by
  refine ⟨parse_header_eq buf h40 hm hv hd, ?_⟩
  have r1 : le32enc (le_decode ((buf.drop 4).take 4)) = (buf.drop 4).take 4 :=
    le32enc_le_decode _ (slice_length buf 4 4 (by omega)) (slice_bytes buf 4 4 hbytes)
  have r2 : le32enc (le_decode ((buf.drop 16).take 4)) = (buf.drop 16).take 4 :=
    le32enc_le_decode _ (slice_length buf 16 4 (by omega)) (slice_bytes buf 16 4 hbytes)
  have r3 : le16enc (le_decode ((buf.drop 20).take 2)) = (buf.drop 20).take 2 :=
    le16enc_le_decode _ (slice_length buf 20 2 (by omega)) (slice_bytes buf 20 2 hbytes)
  have r4 : le16enc (le_decode ((buf.drop 22).take 2)) = (buf.drop 22).take 2 :=
    le16enc_le_decode _ (slice_length buf 22 2 (by omega)) (slice_bytes buf 22 2 hbytes)
  have r5 : le32enc (le_decode ((buf.drop 24).take 4)) = (buf.drop 24).take 4 :=
    le32enc_le_decode _ (slice_length buf 24 4 (by omega)) (slice_bytes buf 24 4 hbytes)
  have r6 : le32enc (le_decode ((buf.drop 28).take 4)) = (buf.drop 28).take 4 :=
    le32enc_le_decode _ (slice_length buf 28 4 (by omega)) (slice_bytes buf 28 4 hbytes)
  have r7 : le16enc (le_decode ((buf.drop 32).take 2)) = (buf.drop 32).take 2 :=
    le16enc_le_decode _ (slice_length buf 32 2 (by omega)) (slice_bytes buf 32 2 hbytes)
  have r8 : le16enc (le_decode ((buf.drop 34).take 2)) = (buf.drop 34).take 2 :=
    le16enc_le_decode _ (slice_length buf 34 2 (by omega)) (slice_bytes buf 34 2 hbytes)
  have t1 : buf.take 40 = buf.take 4 ++ (buf.drop 4).take 36 := List.take_add buf 4 36
  have t2 : (buf.drop 4).take 36 = (buf.drop 4).take 4 ++ (buf.drop 8).take 32 := by
    have h := List.take_add (buf.drop 4) 4 32
    rw [List.drop_drop] at h
    exact h
  have t3 : (buf.drop 8).take 32 = (buf.drop 8).take 8 ++ (buf.drop 16).take 24 := by
    have h := List.take_add (buf.drop 8) 8 24
    rw [List.drop_drop] at h
    exact h
  have t4 : (buf.drop 16).take 24 = (buf.drop 16).take 4 ++ (buf.drop 20).take 20 := by
    have h := List.take_add (buf.drop 16) 4 20
    rw [List.drop_drop] at h
    exact h
  have t5 : (buf.drop 20).take 20 = (buf.drop 20).take 2 ++ (buf.drop 22).take 18 := by
    have h := List.take_add (buf.drop 20) 2 18
    rw [List.drop_drop] at h
    exact h
  have t6 : (buf.drop 22).take 18 = (buf.drop 22).take 2 ++ (buf.drop 24).take 16 := by
    have h := List.take_add (buf.drop 22) 2 16
    rw [List.drop_drop] at h
    exact h
  have t7 : (buf.drop 24).take 16 = (buf.drop 24).take 4 ++ (buf.drop 28).take 12 := by
    have h := List.take_add (buf.drop 24) 4 12
    rw [List.drop_drop] at h
    exact h
  have t8 : (buf.drop 28).take 12 = (buf.drop 28).take 4 ++ (buf.drop 32).take 8 := by
    have h := List.take_add (buf.drop 28) 4 8
    rw [List.drop_drop] at h
    exact h
  have t9 : (buf.drop 32).take 8 = (buf.drop 32).take 2 ++ (buf.drop 34).take 6 := by
    have h := List.take_add (buf.drop 32) 2 6
    rw [List.drop_drop] at h
    exact h
  have t10 : (buf.drop 34).take 6 = (buf.drop 34).take 2 ++ (buf.drop 36).take 4 := by
    have h := List.take_add (buf.drop 34) 2 4
    rw [List.drop_drop] at h
    exact h
  rw [t1, t2, t3, t4, t5, t6, t7, t8, t9, t10]
  simp only [encode_header, header_of_bytes, r1, r2, r3, r4, r5, r6, r7, r8, List.drop_zero]
  simp [List.append_assoc]

end Wir2Wav
namespace Wir2Wav

lemma read_exact_ok_inv {p : Parser} {n : Nat} {bs : List Nat} {p' : Parser}
    (h : read_exact p n = .ok (bs, p')) : p' = ⟨p.bytes, p.pos + n⟩ := by
  unfold read_exact at h
  split at h
  · simp only [PResult.ok.injEq, Prod.mk.injEq] at h
    exact h.2.symm
  · simp at h

lemma parse_magic_ok_inv {p : Parser} {s : List Nat} {p' : Parser}
    (h : parse_magic p = .ok (s, p')) : p' = ⟨p.bytes, p.pos + 4⟩ := by
  unfold parse_magic at h
  rcases hre : read_exact p 4 with ⟨bs, q⟩ | e | e <;> simp only [hre] at h
  · split at h
    · simp only [PResult.ok.injEq, Prod.mk.injEq] at h
      rw [← h.2]
      exact read_exact_ok_inv hre
    · simp at h
  · simp at h
  · simp at h

lemma parse_version_ok_inv {p : Parser} {s : List Nat} {p' : Parser}
    (h : parse_version p = .ok (s, p')) : p' = ⟨p.bytes, p.pos + 8⟩ := by
  unfold parse_version at h
  rcases hre : read_exact p 8 with ⟨bs, q⟩ | e | e <;> simp only [hre] at h
  · split at h
    · simp only [PResult.ok.injEq, Prod.mk.injEq] at h
      rw [← h.2]
      exact read_exact_ok_inv hre
    · simp at h
  · simp at h
  · simp at h

lemma parse_end_of_header_ok_inv {p : Parser} {s : List Nat} {p' : Parser}
    (h : parse_end_of_header p = .ok (s, p')) : p' = ⟨p.bytes, p.pos + 4⟩ := by
  unfold parse_end_of_header at h
  rcases hre : read_exact p 4 with ⟨bs, q⟩ | e | e <;> simp only [hre] at h
  · split at h
    · simp only [PResult.ok.injEq, Prod.mk.injEq] at h
      rw [← h.2]
      exact read_exact_ok_inv hre
    · simp at h
  · simp at h
  · simp at h

lemma read_u32_ok_inv {p : Parser} {x : Nat} {p' : Parser}
    (h : read_u32 p = .ok (x, p')) : p' = ⟨p.bytes, p.pos + 4⟩ := by
  unfold read_u32 at h
  rcases hre : read_exact p 4 with ⟨bs, q⟩ | e | e <;> simp only [hre] at h
  · simp only [PResult.ok.injEq, Prod.mk.injEq] at h
    rw [← h.2]
    exact read_exact_ok_inv hre
  · simp at h
  · simp at h

lemma read_u16_ok_inv {p : Parser} {x : Nat} {p' : Parser}
    (h : read_u16 p = .ok (x, p')) : p' = ⟨p.bytes, p.pos + 2⟩ := by
  unfold read_u16 at h
  rcases hre : read_exact p 2 with ⟨bs, q⟩ | e | e <;> simp only [hre] at h
  · simp only [PResult.ok.injEq, Prod.mk.injEq] at h
    rw [← h.2]
    exact read_exact_ok_inv hre
  · simp at h
  · simp at h

/-- C3: whenever `parse_header` succeeds, the cursor afterwards sits at
offset exactly 40, for every value of the `header_size` field: that field is
stored in the header but never drives how many bytes are consumed. -/
theorem parse_header_consumes_forty (buf : List Nat) (hdr : WirHeader) (p' : Parser)
    (h : parse_header ⟨buf, 0⟩ = .ok (hdr, p')) : p'.pos = 40 := by
  unfold parse_header at h
  rcases h1 : parse_magic ⟨buf, 0⟩ with ⟨m, p1⟩ | e | e <;> simp only [h1] at h
  · obtain rfl : p1 = ⟨buf, 4⟩ := parse_magic_ok_inv h1
    rcases h2 : parse_file_size ⟨buf, 4⟩ with ⟨fs, p2⟩ | e | e <;> simp only [h2] at h
    · obtain rfl : p2 = ⟨buf, 8⟩ := read_u32_ok_inv h2
      rcases h3 : parse_version ⟨buf, 8⟩ with ⟨v, p3⟩ | e | e <;> simp only [h3] at h
      · obtain rfl : p3 = ⟨buf, 16⟩ := parse_version_ok_inv h3
        rcases h4 : parse_header_size ⟨buf, 16⟩ with ⟨hs, p4⟩ | e | e <;> simp only [h4] at h
        · obtain rfl : p4 = ⟨buf, 20⟩ := read_u32_ok_inv h4
          rcases h5 : parse_i3_variable ⟨buf, 20⟩ with ⟨a3, p5⟩ | e | e <;> simp only [h5] at h
          · obtain rfl : p5 = ⟨buf, 22⟩ := read_u16_ok_inv h5
            rcases h6 : parse_channels ⟨buf, 22⟩ with ⟨ch, p6⟩ | e | e <;> simp only [h6] at h
            · obtain rfl : p6 = ⟨buf, 24⟩ := read_u16_ok_inv h6
              rcases h7 : parse_sample_rate ⟨buf, 24⟩ with ⟨sr, p7⟩ | e | e <;> simp only [h7] at h
              · obtain rfl : p7 = ⟨buf, 28⟩ := read_u32_ok_inv h7
                rcases h8 : parse_fs2_variable ⟨buf, 28⟩ with ⟨f2, p8⟩ | e | e <;> simp only [h8] at h
                · obtain rfl : p8 = ⟨buf, 32⟩ := read_u32_ok_inv h8
                  rcases h9 : parse_i4_channels ⟨buf, 32⟩ with ⟨a4, p9⟩ | e | e <;> simp only [h9] at h
                  · obtain rfl : p9 = ⟨buf, 34⟩ := read_u16_ok_inv h9
                    rcases h10 : parse_i5_variable ⟨buf, 34⟩ with ⟨a5, p10⟩ | e | e <;> simp only [h10] at h
                    · obtain rfl : p10 = ⟨buf, 36⟩ := read_u16_ok_inv h10
                      rcases h11 : parse_end_of_header ⟨buf, 36⟩ with ⟨d, p11⟩ | e | e <;> simp only [h11] at h
                      · obtain rfl : p11 = ⟨buf, 40⟩ := parse_end_of_header_ok_inv h11
                        simp only [PResult.ok.injEq, Prod.mk.injEq] at h
                        rw [← h.2]
                      · simp at h
                      · simp at h
                    · simp at h
                    · simp at h
                  · simp at h
                  · simp at h
                · simp at h
                · simp at h
              · simp at h
              · simp at h
            · simp at h
            · simp at h
          · simp at h
          · simp at h
        · simp at h
        · simp at h
      · simp at h
      · simp at h
    · simp at h
    · simp at h
  · simp at h
  · simp at h

/-- A well-formed 40-byte header used to instantiate the universally
quantified theorems: magic "wvIR", file_size 56, version "ver1fmt ",
header_size 40, channels 2, sample rate 44100, end marker "data". -/
def sampleHeaderBytes : List Nat :=
  [119, 118, 73, 82, 56, 0, 0, 0, 118, 101, 114, 49, 102, 109, 116, 32,
   40, 0, 0, 0, 3, 0, 2, 0, 68, 172, 0, 0, 0, 0, 0, 0, 4, 0, 23, 0, 100, 97, 116, 97]

theorem parse_header_layout_roundtrip_witness :
    parse_header ⟨sampleHeaderBytes, 0⟩ =
        .ok (header_of_bytes sampleHeaderBytes, ⟨sampleHeaderBytes, 40⟩) ∧
      encode_header (header_of_bytes sampleHeaderBytes) = sampleHeaderBytes.take 40 :=
  parse_header_layout_roundtrip sampleHeaderBytes (by decide) (by decide) (by decide)
    (by decide) (by decide)

theorem parse_header_consumes_forty_witness :
    parse_header ⟨sampleHeaderBytes, 0⟩ =
        .ok (header_of_bytes sampleHeaderBytes, ⟨sampleHeaderBytes, 40⟩) ∧
      (⟨sampleHeaderBytes, 40⟩ : Parser).pos = 40 :=
  ⟨by decide, parse_header_consumes_forty sampleHeaderBytes
    (header_of_bytes sampleHeaderBytes) ⟨sampleHeaderBytes, 40⟩ (by decide)⟩

/-- C5 (amended): on a buffer of at least 40 bytes whose version region is
not valid UTF-8, `parse_version` returns `InvalidCharacterError` (distinct
from the exhaustion `IoError`, and with no character substitution), and
`parse_header` propagates it by panicking through its `.unwrap()`, carrying
that same error, rather than returning it. -/
theorem parse_header_invalid_version (buf : List Nat) (h40 : 40 ≤ buf.length)
    (hv : utf8Valid ((buf.drop 8).take 8) = false) :
    parse_version ⟨buf, 8⟩ = .err .InvalidCharacterError ∧
      parse_header ⟨buf, 0⟩ = .panicked .InvalidCharacterError := by
  have hver : parse_version ⟨buf, 8⟩ = .err .InvalidCharacterError := by
    simp [parse_version, read_exact_eq_ok ⟨buf, 8⟩ 8 (show 8 + 8 ≤ buf.length by omega), hv]
  refine ⟨hver, ?_⟩
  by_cases hm : utf8Valid ((buf.drop 0).take 4) = true
  · have e1 : parse_magic ⟨buf, 0⟩ = .ok ((buf.drop 0).take 4, ⟨buf, 4⟩) :=
      parse_magic_eq_ok buf 0 (by omega) hm
    have e2 : parse_file_size ⟨buf, 4⟩ =
        .ok (le_decode ((buf.drop 4).take 4), ⟨buf, 8⟩) := read_u32_eq_ok buf 4 (by omega)
    simp only [parse_header, e1, e2, hver]
  · have hm' : utf8Valid (buf.take 4) = false := by simpa using hm
    have e1 : parse_magic ⟨buf, 0⟩ = .err .InvalidCharacterError := by
      simp [parse_magic, read_exact_eq_ok ⟨buf, 0⟩ 4 (show 0 + 4 ≤ buf.length by omega), hm']
    simp only [parse_header, e1]

/-- A 40-byte buffer whose version region (bytes 8-15) is not valid UTF-8
(0xFF bytes); the other regions are those of `sampleHeaderBytes`. -/
def badVersionBytes : List Nat :=
  [119, 118, 73, 82, 56, 0, 0, 0, 255, 255, 255, 255, 255, 255, 255, 255,
   40, 0, 0, 0, 3, 0, 2, 0, 68, 172, 0, 0, 0, 0, 0, 0, 4, 0, 23, 0, 100, 97, 116, 97]

/-- C5 counterexample: on this 40-byte buffer with an invalid-UTF-8 version
region, `parse_header` does not return the invalid-encoding error as the
claim states; it panics (the `.unwrap()` of the version sub-parser),
carrying that error. -/
theorem parse_header_invalid_version_panic_cex :
    parse_header ⟨badVersionBytes, 0⟩ = .panicked .InvalidCharacterError ∧
      parse_header ⟨badVersionBytes, 0⟩ ≠ .err .InvalidCharacterError := by
  exact ⟨by decide, by decide⟩

theorem parse_header_invalid_version_witness :
    parse_version ⟨badVersionBytes, 8⟩ = .err .InvalidCharacterError ∧
      parse_header ⟨badVersionBytes, 0⟩ = .panicked .InvalidCharacterError :=
  parse_header_invalid_version badVersionBytes (by decide) (by decide)

/-- C4 (code-bug evidence): with a buffer that ends exactly 2 bytes into a
4-byte field, `parse_file_size` and `parse_magic` return the buffer
exhaustion error as specified, but `parse_end_of_header` panics on its
unwrapped `read_exact` call (src/lib.rs line 172) instead of returning that
error. -/
theorem parse_end_of_header_truncation_panics :
    parse_end_of_header ⟨[100, 97], 0⟩ = .panicked .IoError ∧
      parse_file_size ⟨[100, 97], 0⟩ = .err .IoError ∧
      parse_magic ⟨[100, 97], 0⟩ = .err .IoError :=
  ⟨by decide, by decide, by decide⟩

/-- C8: `parse_header` succeeds on every buffer of at least 40 bytes whose
three tag regions are valid UTF-8, whatever those regions contain, and
stores the magic and end-marker bytes verbatim: no comparison against
"wvIR" or "data" is performed by the decoder. -/
theorem parse_header_accepts_any_tags (buf : List Nat) (h40 : 40 ≤ buf.length)
    (hm : utf8Valid ((buf.drop 0).take 4) = true)
    (hv : utf8Valid ((buf.drop 8).take 8) = true)
    (hd : utf8Valid ((buf.drop 36).take 4) = true) :
    ∃ hdr p', parse_header ⟨buf, 0⟩ = .ok (hdr, p') ∧
      hdr.magic = (buf.drop 0).take 4 ∧ hdr.data = (buf.drop 36).take 4 :=
  ⟨header_of_bytes buf, ⟨buf, 40⟩, parse_header_eq buf h40 hm hv hd, rfl, rfl⟩

/-- A 40-byte buffer whose magic region is "RIFF" and whose end marker
region is "tail" rather than the expected "wvIR"/"data" tags. -/
def riffTagBytes : List Nat :=
  [82, 73, 70, 70, 56, 0, 0, 0, 118, 101, 114, 49, 102, 109, 116, 32,
   40, 0, 0, 0, 3, 0, 2, 0, 68, 172, 0, 0, 0, 0, 0, 0, 4, 0, 23, 0, 116, 97, 105, 108]

theorem parse_header_accepts_any_tags_witness :
    ∃ hdr p', parse_header ⟨riffTagBytes, 0⟩ = .ok (hdr, p') ∧
      hdr.magic = (riffTagBytes.drop 0).take 4 ∧
      hdr.data = (riffTagBytes.drop 36).take 4 :=
  parse_header_accepts_any_tags riffTagBytes (by decide) (by decide) (by decide) (by decide)

/-- C9: the magic-check predicate holds exactly on the UTF-8 bytes of
"wvIR" and on no other string. -/
theorem check_magic_iff_wvIR (s : List Nat) :
    check_magic s = true ↔ s = [119, 118, 73, 82] := by
  simp [check_magic]

theorem check_magic_iff_wvIR_witness :
    check_magic [119, 118, 73, 82] = true ∧ check_magic [82, 73, 70, 70] = false := by
  constructor
  · exact (check_magic_iff_wvIR [119, 118, 73, 82]).mpr rfl
  · have h := check_magic_iff_wvIR [82, 73, 70, 70]
    simp only [List.cons.injEq, and_true] at h
    simpa using (h.not.mpr (by decide) : _)

end Wir2Wav
namespace Wir2Wav

lemma pushAt_length (body : List (List Nat)) (i x : Nat) :
    (pushAt body i x).length = body.length := by
  simp [pushAt]

lemma pushAt_getD_self (body : List (List Nat)) (i x : Nat) (hi : i < body.length) :
    (pushAt body i x).getD i [] = body.getD i [] ++ [x] := by
  unfold pushAt
  rw [List.getD_eq_getElem?_getD, List.getElem?_set_self hi]
  simp

lemma pushAt_getD_ne (body : List (List Nat)) (i j x : Nat) (h : j ≠ i) :
    (pushAt body i x).getD j [] = body.getD j [] := by
  unfold pushAt
  rw [List.getD_eq_getElem?_getD, List.getElem?_set_ne (Ne.symm h),
    ← List.getD_eq_getElem?_getD]

lemma readFrameAux_ok (buf : List Nat) :
    ∀ (k pos channel : Nat) (body : List (List Nat)),
      pos + 4 * k ≤ buf.length →
      channel + k ≤ body.length →
      ∃ body', readFrameAux ⟨buf, pos⟩ body channel k = .ok (body', ⟨buf, pos + 4 * k⟩) ∧
        body'.length = body.length ∧
        (∀ i, channel ≤ i → i < channel + k →
          (body'.getD i []).length = (body.getD i []).length + 1) ∧
        (∀ i, i < channel ∨ channel + k ≤ i → body'.getD i [] = body.getD i []) := by
  intro k
  induction k with
  | zero =>
    intro pos channel body hlen hch
    refine ⟨body, by simp [readFrameAux], rfl, ?_, ?_⟩
    · intro i h1 h2
      omega
    · intro i _
      rfl
  | succ k ih =>
    intro pos channel body hlen hch
    have hr4 : pos + 4 ≤ buf.length := by omega
    have hr : read_f32_bits ⟨buf, pos⟩ =
        .ok (le_decode ((buf.drop pos).take 4), ⟨buf, pos + 4⟩) := by
      simp [read_f32_bits, read_exact_eq_ok ⟨buf, pos⟩ 4 hr4]
    obtain ⟨body', hrun, hlen', hinc, hkeep⟩ :=
      ih (pos + 4) (channel + 1)
        (pushAt body channel (le_decode ((buf.drop pos).take 4)))
        (by omega) (by rw [pushAt_length]; omega)
    have hchlt : channel < body.length := by omega
    refine ⟨body', ?_, ?_, ?_, ?_⟩
    · have hp : pos + 4 * (k + 1) = pos + 4 + 4 * k := by ring
      rw [hp]
      simp only [readFrameAux, hr]
      exact hrun
    · rw [hlen', pushAt_length]
    · intro i h1 h2
      rcases Nat.eq_or_lt_of_le h1 with heq | hgt
      · subst heq
        rw [hkeep channel (Or.inl (by omega)),
          pushAt_getD_self body channel _ hchlt]
        simp
      · rw [hinc i (by omega) (by omega),
          pushAt_getD_ne body channel i _ (by omega)]
    · intro i hi
      rcases hi with hi | hi
      · rw [hkeep i (Or.inl (by omega))]
        exact pushAt_getD_ne body channel i _ (by omega)
      · rw [hkeep i (Or.inr (by omega))]
        exact pushAt_getD_ne body channel i _ (by omega)

lemma readFrame_ok (buf : List Nat) (channels pos : Nat) (body : List (List Nat))
    (hlen : pos + 4 * channels ≤ buf.length) (hb : body.length = channels) :
    ∃ body', readFrame ⟨buf, pos⟩ body channels = .ok (body', ⟨buf, pos + 4 * channels⟩) ∧
      body'.length = channels ∧
      ∀ i, i < channels → (body'.getD i []).length = (body.getD i []).length + 1 := by
  obtain ⟨body', hrun, hlen', hinc, _⟩ :=
    readFrameAux_ok buf channels pos 0 body hlen (by omega)
  exact ⟨body', hrun, by rw [hlen', hb], fun i hi => hinc i (Nat.zero_le i) (by omega)⟩

lemma parse_body_loop_succ (channels fs fuel : Nat) (buf : List Nat) (pos : Nat)
    (body : List (List Nat)) :
    parse_body_loop channels fs (fuel + 1) ⟨buf, pos⟩ body =
      if pos % 4294967296 < fs then
        match readFrame ⟨buf, pos⟩ body channels with
        | .ok (body', p') => parse_body_loop channels fs fuel p' body'
        | .err e => .panicked e
        | .panicked e => .panicked e
      else .ok (body, ⟨buf, pos⟩) := rfl

lemma parse_body_loop_ok (channels fs : Nat) (buf : List Nat) (hch : 1 ≤ channels) :
    ∀ (k fuel pos : Nat) (body : List (List Nat)),
      fs ≤ pos + 4 * channels * k →
      (∀ j, j < k → pos + 4 * channels * j < fs) →
      pos + 4 * channels * k ≤ buf.length →
      pos + 4 * channels * k < 4294967296 →
      body.length = channels →
      k < fuel →
      ∃ body', parse_body_loop channels fs fuel ⟨buf, pos⟩ body =
          .ok (body', ⟨buf, pos + 4 * channels * k⟩) ∧
        body'.length = channels ∧
        ∀ i, i < channels → (body'.getD i []).length = (body.getD i []).length + k := by
  intro k
  induction k with
  | zero =>
    intro fuel pos body hstop hrun hlen hmax hb hfuel
    obtain ⟨fuel, rfl⟩ : ∃ f, fuel = f + 1 := ⟨fuel - 1, by omega⟩
    simp only [Nat.mul_zero, Nat.add_zero] at hstop hlen hmax ⊢
    have hcond : ¬ pos % 4294967296 < fs := by
      rw [Nat.mod_eq_of_lt hmax]
      omega
    refine ⟨body, ?_, hb, ?_⟩
    · rw [parse_body_loop_succ, if_neg hcond]
    · intro i hi
      rfl
  | succ k ih =>
    intro fuel pos body hstop hrun hlen hmax hb hfuel
    obtain ⟨fuel, rfl⟩ : ∃ f, fuel = f + 1 := ⟨fuel - 1, by omega⟩
    have hmul : 4 * channels * (k + 1) = 4 * channels + 4 * channels * k := by ring
    rw [hmul] at hstop hlen hmax ⊢
    have h0 := hrun 0 (Nat.succ_pos k)
    rw [Nat.mul_zero, Nat.add_zero] at h0
    have hposlt : pos < 4294967296 := by
      obtain ⟨B, hB⟩ : ∃ B, 4 * channels * k = B := ⟨_, rfl⟩
      rw [hB] at hmax
      clear hB
      omega
    have hcond : pos % 4294967296 < fs := by
      rw [Nat.mod_eq_of_lt hposlt]
      exact h0
    obtain ⟨body1, hfr, hlen1, hinc1⟩ := readFrame_ok buf channels pos body
      (by
        obtain ⟨B, hB⟩ : ∃ B, 4 * channels * k = B := ⟨_, rfl⟩
        rw [hB] at hlen
        clear hB
        omega) hb
    obtain ⟨body', hloop, hlen', hinc'⟩ := ih fuel (pos + 4 * channels) body1
      (by
        obtain ⟨B, hB⟩ : ∃ B, 4 * channels * k = B := ⟨_, rfl⟩
        rw [hB] at hstop ⊢
        clear hB
        omega)
      (fun j hj => by
        have hjj := hrun (j + 1) (by omega)
        have hm2 : 4 * channels * (j + 1) = 4 * channels + 4 * channels * j := by ring
        rw [hm2] at hjj
        rw [Nat.add_assoc]
        exact hjj)
      (by
        obtain ⟨B, hB⟩ : ∃ B, 4 * channels * k = B := ⟨_, rfl⟩
        rw [hB] at hlen ⊢
        clear hB
        omega)
      (by
        obtain ⟨B, hB⟩ : ∃ B, 4 * channels * k = B := ⟨_, rfl⟩
        rw [hB] at hmax ⊢
        clear hB
        omega)
      hlen1
      (by omega)
    refine ⟨body', ?_, hlen', ?_⟩
    · rw [parse_body_loop_succ, if_pos hcond]
      simp only [hfr]
      rw [hloop, ← Nat.add_assoc]
    · intro i hi
      have a1 := hinc' i hi
      have a2 := hinc1 i hi
      omega

lemma ceil_le_mul (m d : Nat) (hd : 1 ≤ d) : m ≤ d * ((m + (d - 1)) / d) := by
  rcases Nat.eq_zero_or_pos m with hm | hm
  · simp [hm]
  · have h1 := Nat.div_add_mod (m + (d - 1)) d
    have h2 : (m + (d - 1)) % d < d := Nat.mod_lt _ (by omega)
    obtain ⟨B, hB⟩ : ∃ B, d * ((m + (d - 1)) / d) = B := ⟨_, rfl⟩
    rw [hB] at h1 ⊢
    obtain ⟨r, hr⟩ : ∃ r, (m + (d - 1)) % d = r := ⟨_, rfl⟩
    rw [hr] at h1 h2
    clear hB hr
    omega

lemma ceil_lt_mul (m d j : Nat) (hd : 1 ≤ d) (hj : j < (m + (d - 1)) / d) :
    d * j < m := by
  have h3 : d * ((m + (d - 1)) / d) ≤ m + (d - 1) := Nat.mul_div_le (m + (d - 1)) d
  have h5 : d * (j + 1) ≤ d * ((m + (d - 1)) / d) := Nat.mul_le_mul_left d hj
  have h6 : d * (j + 1) = d * j + d := by ring
  rw [h6] at h5
  obtain ⟨B, hB⟩ : ∃ B, d * ((m + (d - 1)) / d) = B := ⟨_, rfl⟩
  rw [hB] at h3 h5
  obtain ⟨C, hC⟩ : ∃ C, d * j = C := ⟨_, rfl⟩
  rw [hC] at h5 ⊢
  clear hB hC
  omega

lemma ceil_exact (f d : Nat) (hd : 1 ≤ d) : (d * f + (d - 1)) / d = f := by
  rw [show d * f + (d - 1) = (d - 1) + f * d by ring,
    Nat.add_mul_div_right _ _ (show 0 < d by omega),
    Nat.div_eq_of_lt (show d - 1 < d by omega)]
  omega

/-- C2: with at least one channel and a buffer holding every implied frame,
`parse_body` started at offset 40 returns one sequence per declared channel,
all of the same length, namely the number of whole frames
`k = ceil((file_size - 40) / (4 * channels))`; the final cursor position is
`40 + 4 * channels * k`, at or past the `file_size` boundary (the last frame
is read in full even when `file_size - 40` is not a multiple of
`4 * channels`); when `file_size = 40 + frames * channels * 4` the count is
exactly `frames`, and when `file_size ≤ 40` it is zero. -/
theorem parse_body_sample_counts (hdr : WirHeader) (buf : List Nat) (k fuel : Nat)
    (hch : 1 ≤ hdr.channels)
    (hk : k = (hdr.file_size - 40 + (4 * hdr.channels - 1)) / (4 * hdr.channels))
    (hlen : 40 + 4 * hdr.channels * k ≤ buf.length)
    (hmax : 40 + 4 * hdr.channels * k < 4294967296)
    (hfuel : k < fuel) :
    ∃ body p', parse_body ⟨buf, 40⟩ hdr fuel = .ok (body, p') ∧
      body.length = hdr.channels ∧
      (∀ c ∈ body, c.length = k) ∧
      p'.pos = 40 + 4 * hdr.channels * k ∧
      hdr.file_size ≤ 40 + 4 * hdr.channels * k ∧
      (∀ frames, hdr.file_size = 40 + frames * hdr.channels * 4 → k = frames) ∧
      (hdr.file_size ≤ 40 → k = 0) := by
  have hle := ceil_le_mul (hdr.file_size - 40) (4 * hdr.channels) (by omega)
  rw [← hk] at hle
  have hstop : hdr.file_size ≤ 40 + 4 * hdr.channels * k := by
    obtain ⟨B, hB⟩ : ∃ B, 4 * hdr.channels * k = B := ⟨_, rfl⟩
    rw [hB] at hle ⊢
    clear hB
    omega
  have hrun : ∀ j, j < k → 40 + 4 * hdr.channels * j < hdr.file_size := by
    intro j hj
    have hcl := ceil_lt_mul (hdr.file_size - 40) (4 * hdr.channels) j (by omega) (hk ▸ hj)
    obtain ⟨C, hC⟩ : ∃ C, 4 * hdr.channels * j = C := ⟨_, rfl⟩
    rw [hC] at hcl ⊢
    clear hC
    omega
  obtain ⟨body', hloop, hblen, hinc⟩ :=
    parse_body_loop_ok hdr.channels hdr.file_size buf hch k fuel 40
      (List.replicate hdr.channels []) hstop hrun hlen hmax (by simp) hfuel
  refine ⟨body', ⟨buf, 40 + 4 * hdr.channels * k⟩, hloop, hblen, ?_, rfl, hstop, ?_, ?_⟩
  · intro c hc
    obtain ⟨i, hi, rfl⟩ := List.mem_iff_getElem.mp hc
    have hib : i < hdr.channels := by rw [← hblen]; exact hi
    have h2 := hinc i hib
    simp only [List.getD_eq_getElem?_getD, List.getElem?_replicate, hib, if_true,
      List.getElem?_eq_getElem hi, Option.getD_some, List.length_nil, Nat.zero_add] at h2
    exact h2
  · intro f hf
    rw [hk, hf, Nat.add_sub_cancel_left,
      show f * hdr.channels * 4 = 4 * hdr.channels * f by ring]
    exact ceil_exact f (4 * hdr.channels) (by omega)
  · intro hsmall
    rw [hk, show hdr.file_size - 40 = 0 by omega, Nat.zero_add]
    exact Nat.div_eq_of_lt (by omega)

/-- Body bytes for the C2 witness: the sample header (file_size 56,
channels 2) followed by four little-endian samples. -/
def stereoBodyBytes : List Nat :=
  sampleHeaderBytes ++ [1, 0, 0, 0, 2, 0, 0, 0, 3, 0, 0, 0, 4, 0, 0, 0]

theorem parse_body_sample_counts_witness :
    ∃ body p', parse_body ⟨stereoBodyBytes, 40⟩ (header_of_bytes stereoBodyBytes) 3 =
        .ok (body, p') ∧
      body.length = (header_of_bytes stereoBodyBytes).channels ∧
      (∀ c ∈ body, c.length = 2) ∧
      p'.pos = 40 + 4 * (header_of_bytes stereoBodyBytes).channels * 2 ∧
      (header_of_bytes stereoBodyBytes).file_size ≤
        40 + 4 * (header_of_bytes stereoBodyBytes).channels * 2 ∧
      (∀ frames, (header_of_bytes stereoBodyBytes).file_size =
        40 + frames * (header_of_bytes stereoBodyBytes).channels * 4 → 2 = frames) ∧
      ((header_of_bytes stereoBodyBytes).file_size ≤ 40 → 2 = 0) :=
  parse_body_sample_counts (header_of_bytes stereoBodyBytes) stereoBodyBytes 2 3
    (by decide) (by decide) (by decide) (by decide) (by decide)

/-- C6: with at least one channel and a buffer holding every implied frame,
the body loop terminates with the cursor at or past `file_size` (each
iteration advances the position by `4 * channels > 0`); with zero channels
and the cursor position (as u32) strictly below `file_size`, it never
terminates: every fuel value is exhausted because an iteration reads
nothing and the position never advances. -/
theorem parse_body_termination :
    (∀ (hdr : WirHeader) (buf : List Nat) (k fuel : Nat),
      1 ≤ hdr.channels →
      k = (hdr.file_size - 40 + (4 * hdr.channels - 1)) / (4 * hdr.channels) →
      40 + 4 * hdr.channels * k ≤ buf.length →
      40 + 4 * hdr.channels * k < 4294967296 →
      k < fuel →
      ∃ body p', parse_body ⟨buf, 40⟩ hdr fuel = .ok (body, p') ∧
        hdr.file_size ≤ p'.pos) ∧
    (∀ (hdr : WirHeader) (buf : List Nat) (pos fuel : Nat),
      hdr.channels = 0 → pos % 4294967296 < hdr.file_size →
      parse_body ⟨buf, pos⟩ hdr fuel = .fuelOut) := by
  constructor
  · intro hdr buf k fuel hch hk hlen hmax hfuel
    have hle := ceil_le_mul (hdr.file_size - 40) (4 * hdr.channels) (by omega)
    rw [← hk] at hle
    have hstop : hdr.file_size ≤ 40 + 4 * hdr.channels * k := by
      obtain ⟨B, hB⟩ : ∃ B, 4 * hdr.channels * k = B := ⟨_, rfl⟩
      rw [hB] at hle ⊢
      clear hB
      omega
    have hrun : ∀ j, j < k → 40 + 4 * hdr.channels * j < hdr.file_size := by
      intro j hj
      have hcl := ceil_lt_mul (hdr.file_size - 40) (4 * hdr.channels) j (by omega) (hk ▸ hj)
      obtain ⟨C, hC⟩ : ∃ C, 4 * hdr.channels * j = C := ⟨_, rfl⟩
      rw [hC] at hcl ⊢
      clear hC
      omega
    obtain ⟨body', hloop, hblen, hinc⟩ :=
      parse_body_loop_ok hdr.channels hdr.file_size buf hch k fuel 40
        (List.replicate hdr.channels []) hstop hrun hlen hmax (by simp) hfuel
    exact ⟨body', ⟨buf, 40 + 4 * hdr.channels * k⟩, hloop, hstop⟩
  · intro hdr buf pos fuel h0 hlt
    simp only [parse_body, h0]
    induction fuel with
    | zero => rfl
    | succ f ihf =>
      rw [parse_body_loop_succ, if_pos hlt]
      have hfr : readFrame ⟨buf, pos⟩ (List.replicate 0 []) 0 =
          .ok (List.replicate 0 [], ⟨buf, pos⟩) := rfl
      simp only [hfr]
      exact ihf

/-- Header with zero channels for the C6 witness. -/
def zeroChannelHeader : WirHeader :=
  { magic := [119, 118, 73, 82], file_size := 56,
    version := [118, 101, 114, 49, 102, 109, 116, 32], header_size := 40,
    i3 := 3, channels := 0, sample_rate := 44100, fs2 := 0, i4 := 4, i5 := 23,
    data := [100, 97, 116, 97] }

theorem parse_body_termination_witness :
    (∃ body p', parse_body ⟨stereoBodyBytes, 40⟩ (header_of_bytes stereoBodyBytes) 3 =
        .ok (body, p') ∧
      (header_of_bytes stereoBodyBytes).file_size ≤ p'.pos) ∧
    parse_body ⟨stereoBodyBytes, 40⟩ zeroChannelHeader 7 = .fuelOut :=
  ⟨parse_body_termination.1 (header_of_bytes stereoBodyBytes) stereoBodyBytes 2 3
      (by decide) (by decide) (by decide) (by decide) (by decide),
    parse_body_termination.2 zeroChannelHeader stereoBodyBytes 40 7
      (by decide) (by decide)⟩

end Wir2Wav
namespace Wir2Wav

lemma le_decode_le32enc (x : Nat) (hx : x < 4294967296) : le_decode (le32enc x) = x := by
  simp only [le32enc, le_decode]
  omega

lemma readFrameAux_succ (p : Parser) (body : List (List Nat)) (channel k : Nat) :
    readFrameAux p body channel (k + 1) =
      match read_f32_bits p with
      | .ok (x, p') => readFrameAux p' (pushAt body channel x) (channel + 1) k
      | .err e => .panicked e
      | .panicked e => .panicked e := rfl

lemma readFrameAux_zero (p : Parser) (body : List (List Nat)) (channel : Nat) :
    readFrameAux p body channel 0 = .ok (body, p) := rfl

lemma read_f32_bits_of_drop (buf rest : List Nat) (pos x : Nat) (hx : x < 4294967296)
    (h : buf.drop pos = le32enc x ++ rest) :
    read_f32_bits ⟨buf, pos⟩ = .ok (x, ⟨buf, pos + 4⟩) ∧ buf.drop (pos + 4) = rest := by
  have hlen : buf.length - pos = 4 + rest.length := by
    have hcl := congrArg List.length h
    simp [le32enc] at hcl
    omega
  have hple : pos + 4 ≤ buf.length := by omega
  have htake : (buf.drop pos).take 4 = le32enc x := by
    rw [h]
    exact List.take_left' (by simp [le32enc])
  constructor
  · simp [read_f32_bits, read_exact_eq_ok ⟨buf, pos⟩ 4 hple, htake, le_decode_le32enc x hx]
  · have h2 : (buf.drop pos).drop 4 = buf.drop (pos + 4) := List.drop_drop 4 pos buf
    rw [← h2, h]
    exact List.drop_left' (by simp [le32enc])

lemma readFrame_two (p pa pb : Parser) (a b : Nat) (c0 c1 : List Nat)
    (ha : read_f32_bits p = .ok (a, pa)) (hb : read_f32_bits pa = .ok (b, pb)) :
    readFrame p [c0, c1] 2 = .ok ([c0 ++ [a], c1 ++ [b]], pb) := by
  show readFrameAux p [c0, c1] 0 2 = _
  simp [readFrameAux_succ, readFrameAux_zero, ha, hb, pushAt]

/-- C7: for two channels, body bytes encoding the interleaved frames
(L0,R0),(L1,R1) decode to the channel-major body
`channel[0] = [L0, L1]`, `channel[1] = [R0, R1]`, and the deinterleaving
writer then hands the samples to the encoder one at a time in frame-major
order L0, R0, L1, R1. -/
theorem stereo_decode_write_order (pre : List Nat) (L0 R0 L1 R1 : Nat)
    (hdr : WirHeader) (hpre : pre.length = 40)
    (h0 : L0 < 4294967296) (h1 : R0 < 4294967296)
    (h2 : L1 < 4294967296) (h3 : R1 < 4294967296)
    (hch : hdr.channels = 2) (hfs : hdr.file_size = 56) :
    parse_body ⟨pre ++ (le32enc L0 ++ (le32enc R0 ++ (le32enc L1 ++ le32enc R1))), 40⟩ hdr 3 =
      .ok ([[L0, L1], [R0, R1]],
        ⟨pre ++ (le32enc L0 ++ (le32enc R0 ++ (le32enc L1 ++ le32enc R1))), 56⟩) ∧
    write_to_wav [[L0, L1], [R0, R1]] 3 = .ok ([L0, R0, L1, R1], [[], []]) := by
  have hd40 : (pre ++ (le32enc L0 ++ (le32enc R0 ++ (le32enc L1 ++ le32enc R1)))).drop 40 =
      le32enc L0 ++ (le32enc R0 ++ (le32enc L1 ++ le32enc R1)) := List.drop_left' hpre
  obtain ⟨hr1, hd44⟩ := read_f32_bits_of_drop _ _ 40 L0 h0 hd40
  obtain ⟨hr2, hd48⟩ := read_f32_bits_of_drop _ _ 44 R0 h1 hd44
  obtain ⟨hr3, hd52⟩ := read_f32_bits_of_drop _ _ 48 L1 h2 hd48
  have hd52e : (pre ++ (le32enc L0 ++ (le32enc R0 ++ (le32enc L1 ++ le32enc R1)))).drop 52 =
      le32enc R1 ++ [] := by
    rw [List.append_nil]
    exact hd52
  obtain ⟨hr4, hd56⟩ := read_f32_bits_of_drop _ _ 52 R1 h3 hd52e
  have f1 : readFrame ⟨pre ++ (le32enc L0 ++ (le32enc R0 ++ (le32enc L1 ++ le32enc R1))), 40⟩
      [[], []] 2 =
      .ok ([[L0], [R0]], ⟨pre ++ (le32enc L0 ++ (le32enc R0 ++ (le32enc L1 ++ le32enc R1))), 48⟩) := by
    have hf := readFrame_two _ _ _ L0 R0 [] [] hr1 hr2
    simpa using hf
  have f2 : readFrame ⟨pre ++ (le32enc L0 ++ (le32enc R0 ++ (le32enc L1 ++ le32enc R1))), 48⟩
      [[L0], [R0]] 2 =
      .ok ([[L0, L1], [R0, R1]],
        ⟨pre ++ (le32enc L0 ++ (le32enc R0 ++ (le32enc L1 ++ le32enc R1))), 56⟩) := by
    have hf := readFrame_two _ _ _ L1 R1 [L0] [R0] hr3 hr4
    simpa using hf
  constructor
  · simp only [parse_body, hch, hfs]
    rw [parse_body_loop_succ, if_pos (show (40 : Nat) % 4294967296 < 56 by norm_num)]
    simp only [show (List.replicate 2 ([] : List Nat)) = [[], []] from rfl, f1]
    rw [parse_body_loop_succ, if_pos (show (48 : Nat) % 4294967296 < 56 by norm_num)]
    simp only [f2]
    rw [parse_body_loop_succ, if_neg (show ¬ (56 : Nat) % 4294967296 < 56 by norm_num)]
  · rfl

theorem stereo_decode_write_order_witness :
    parse_body ⟨List.replicate 40 0 ++ (le32enc 1 ++ (le32enc 2 ++ (le32enc 3 ++ le32enc 4))), 40⟩
        (header_of_bytes stereoBodyBytes) 3 =
      .ok ([[1, 3], [2, 4]],
        ⟨List.replicate 40 0 ++ (le32enc 1 ++ (le32enc 2 ++ (le32enc 3 ++ le32enc 4))), 56⟩) ∧
    write_to_wav [[1, 3], [2, 4]] 3 = .ok ([1, 2, 3, 4], [[], []]) :=
  stereo_decode_write_order (List.replicate 40 0) 1 2 3 4 (header_of_bytes stereoBodyBytes)
    (by decide) (by decide) (by decide) (by decide) (by decide) (by decide) (by decide)

lemma write_loop_succ (fuel : Nat) (body : List (List Nat)) (out : List Nat) :
    write_loop (fuel + 1) body out =
      match body.getLast? with
      | none => .panicked out
      | some lastChannel =>
        if 0 < lastChannel.length then
          match writeFrame body with
          | (samples, none) => .panicked (out ++ samples)
          | (samples, some body') => write_loop fuel body' (out ++ samples)
        else .ok (out, body) := rfl

lemma writeFrame_eq (body : List (List Nat)) (hne : ∀ c ∈ body, c ≠ []) :
    writeFrame body = (body.map (fun c => c.headD 0), some (body.map List.tail)) := by
  induction body with
  | nil => rfl
  | cons c rest ih =>
    have hc := hne c (by simp)
    obtain ⟨x, xs, rfl⟩ : ∃ x xs, c = x :: xs := by
      rcases c with _ | ⟨x, xs⟩
      · exact absurd rfl hc
      · exact ⟨x, xs, rfl⟩
    have ih2 := ih (fun d hd => hne d (by simp [hd]))
    simp only [writeFrame, ih2]
    simp

lemma write_loop_drains (channels : Nat) (hch : 1 ≤ channels) :
    ∀ (n fuel : Nat) (body : List (List Nat)) (out : List Nat),
      body.length = channels →
      (∀ c ∈ body, c.length = n) →
      n < fuel →
      ∃ out', write_loop fuel body out = .ok (out ++ out', List.replicate channels []) ∧
        out'.length = n * channels := by
  intro n
  induction n with
  | zero =>
    intro fuel body out hblen hlen hfuel
    obtain ⟨fuel, rfl⟩ : ∃ f, fuel = f + 1 := ⟨fuel - 1, by omega⟩
    have hbody : body = List.replicate channels [] := by
      rw [List.eq_replicate_iff]
      exact ⟨hblen, fun b hb => List.length_eq_zero.mp (hlen b hb)⟩
    have hne : body ≠ [] := by
      intro hcon
      rw [hcon] at hblen
      simp at hblen
      omega
    have hlast : body.getLast? = some (body.getLast hne) := List.getLast?_eq_getLast body hne
    have hlen0 : (body.getLast hne).length = 0 := hlen _ (List.getLast_mem hne)
    refine ⟨[], ?_, by simp⟩
    simp only [write_loop_succ, hlast]
    rw [if_neg (by omega), hbody]
    simp
  | succ n ihn =>
    intro fuel body out hblen hlen hfuel
    obtain ⟨fuel, rfl⟩ : ∃ f, fuel = f + 1 := ⟨fuel - 1, by omega⟩
    have hne : body ≠ [] := by
      intro hcon
      rw [hcon] at hblen
      simp at hblen
      omega
    have hlast : body.getLast? = some (body.getLast hne) := List.getLast?_eq_getLast body hne
    have hlenlast : (body.getLast hne).length = n + 1 := hlen _ (List.getLast_mem hne)
    have hnonempty : ∀ c ∈ body, c ≠ [] := by
      intro c hc hcon
      have hl := hlen c hc
      rw [hcon] at hl
      simp at hl
    have hwf : writeFrame body = (body.map (fun c => c.headD 0), some (body.map List.tail)) :=
      writeFrame_eq body hnonempty
    obtain ⟨out', hrun, hlen'⟩ := ihn fuel (body.map List.tail)
      (out ++ body.map (fun c => c.headD 0))
      (by rw [List.length_map]; exact hblen)
      (by
        intro c hc
        obtain ⟨d, hd, rfl⟩ := List.mem_map.mp hc
        have hl := hlen d hd
        rw [List.length_tail, hl]
        omega)
      (by omega)
    refine ⟨body.map (fun c => c.headD 0) ++ out', ?_, ?_⟩
    · simp only [write_loop_succ, hlast]
      rw [if_pos (by omega)]
      simp only [hwf]
      rw [hrun, List.append_assoc]
    · rw [List.length_append, List.length_map, hblen, hlen']
      ring

/-- C10: for a body with at least one channel and all channel sequences of
equal length n, the writer hands exactly n * channels samples to the encoder
(front removal, one frame per iteration, stopping when the last channel is
drained) and afterwards every channel sequence is empty; for a body with
zero channels the termination check unwraps `last()` of an empty iterator
and panics before any sample is written. -/
theorem write_to_wav_drains_body (channels n fuel : Nat) (body : List (List Nat)) :
    (1 ≤ channels → body.length = channels → (∀ c ∈ body, c.length = n) → n < fuel →
      ∃ out, write_to_wav body fuel = .ok (out, List.replicate channels []) ∧
        out.length = n * channels) ∧
    (1 ≤ fuel → write_to_wav [] fuel = .panicked []) := by
  constructor
  · intro hch hblen hlen hfuel
    obtain ⟨out', hrun, hlen'⟩ := write_loop_drains channels hch n fuel body [] hblen hlen hfuel
    refine ⟨out', ?_, hlen'⟩
    show write_loop fuel body [] = _
    simpa using hrun
  · intro hfuel
    obtain ⟨fuel, rfl⟩ : ∃ f, fuel = f + 1 := ⟨fuel - 1, by omega⟩
    rfl

theorem write_to_wav_drains_body_witness :
    (∃ out, write_to_wav [[5, 7], [8, 9]] 3 = .ok (out, List.replicate 2 []) ∧
      out.length = 2 * 2) ∧
    write_to_wav [] 3 = .panicked [] :=
  ⟨(write_to_wav_drains_body 2 2 3 [[5, 7], [8, 9]]).1 (by decide) (by decide) (by decide)
      (by decide),
    (write_to_wav_drains_body 2 2 3 [[5, 7], [8, 9]]).2 (by decide)⟩

end Wir2Wav
